import Mathlib

set_option maxRecDepth 40000

/-!
Shallow embedding of `scripts/update_citations.py`.

The script fetches a Google Scholar profile page, extracts a citation count
by three ordered strategies, and patches the count into two text files by
regex substitution.  Text is modelled as `List Char`; the parsed HTML
document is modelled by the structure `Doc` (the stats table found by id,
the styled cells found by class, and the raw response text); per-attempt
network outcomes are modelled by `Nat → Option Doc`; the two target files
by `FS`.  Fallible Python code (exceptions) is modelled with `Option` /
`Except`.  Character classes are modelled over ASCII, which covers every
literal the script matches on.
-/

/-- Python whitespace characters (ASCII subset of `\s` and `str.strip`). -/
def isPySpace (c : Char) : Bool :=
  c = ' ' || c = '\t' || c = '\n' || c = '\r' || c = Char.ofNat 11 || c = Char.ofNat 12

/-- ASCII lower-casing, as applied by `str.lower` / `re.IGNORECASE` on ASCII. -/
def lowerChar (c : Char) : Char :=
  if 65 ≤ c.toNat && c.toNat ≤ 90 then Char.ofNat (c.toNat + 32) else c

def lowerStr (s : List Char) : List Char := s.map lowerChar

/-- `str.strip()` / `get_text(strip=True)`: drop whitespace from both ends. -/
def pyStrip (s : List Char) : List Char :=
  ((s.dropWhile isPySpace).reverse.dropWhile isPySpace).reverse

/-- `text.replace(",", "")`. -/
def removeCommas (s : List Char) : List Char := s.filter (fun c => c ≠ ',')

/-- Value of a digit string (most significant first). -/
def natOfDigits (s : List Char) : Nat :=
  s.foldl (fun a c => a * 10 + (c.toNat - 48)) 0

/-- Case-insensitive literal matcher: `litCIAux needle hay` consumes the
needle (given pre-lowercased) from the front of the hay, returning the
consumed hay characters (original casing) and the remainder. -/
def litCIAux : List Char → List Char → Option (List Char × List Char)
  | [], s => some ([], s)
  | _ :: _, [] => none
  | a :: as, c :: cs =>
    if lowerChar c = a then (litCIAux as cs).map (fun x => (c :: x.1, x.2)) else none

/-- Case-sensitive prefix test. -/
def isPrefixCS : List Char → List Char → Bool
  | [], _ => true
  | _ :: _, [] => false
  | a :: as, c :: cs => a = c && isPrefixCS as cs

/-- Case-sensitive substring test (Python `needle in hay`). -/
def containsCS (n : List Char) : List Char → Bool
  | [] => isPrefixCS n []
  | s@(_ :: t) => isPrefixCS n s || containsCS n t

/-- Case-insensitive substring test (needle pre-lowercased). -/
def containsCI (n : List Char) : List Char → Bool
  | [] => (litCIAux n ([] : List Char)).isSome
  | s@(_ :: t) => (litCIAux n s).isSome || containsCI n t

/-- Python `int(s)` restricted to ASCII: optional surrounding whitespace,
optional sign, then a nonempty run of decimal digits.  (Python also accepts
underscore grouping and Unicode digits; none of the script's inputs or the
claims involve those.)  `none` models `ValueError`. -/
def pyInt (s : List Char) : Option Int :=
  let t := pyStrip s
  if t.isEmpty then none
  else if t.headD ' ' = '-' then
    let ds := t.tail
    if !ds.isEmpty && ds.all Char.isDigit then some (-(natOfDigits ds : Int)) else none
  else if t.headD ' ' = '+' then
    let ds := t.tail
    if !ds.isEmpty && ds.all Char.isDigit then some ((natOfDigits ds : Int)) else none
  else if t.all Char.isDigit then some ((natOfDigits t : Int)) else none

/-- Decimal rendering of the fetched count, as Python `str(int)` formats it
into the replacement template. -/
def natDigits (n : Nat) : List Char := Nat.toDigits 10 n

def pyStr (n : Int) : List Char :=
  if n < 0 then '-' :: natDigits (-n).toNat else natDigits n.toNat

/-- "citations" (lower-cased needle for the case-insensitive checks). -/
def citLit : List Char := "citations".toList

/-- The literal word as it appears cased in the fallback regex. -/
def citStr : List Char := "Citations".toList

def capLit : List Char := "CAPTCHA".toList

def unusualLit : List Char := "unusual traffic".toList

/-- The fetched-and-parsed profile page: the `gsc_rsb_st` table (rows of
cell texts) when present, the `gsc_rsb_std` cell texts, and the raw
response text. -/
structure Doc where
  statsTable : Option (List (List (List Char)))
  styledCells : List (List Char)
  raw : List Char

/-- Method 1's row scan: the first row with at least two cells whose first
cell's stripped, lower-cased text contains "citations". -/
def findCitRow : List (List (List Char)) → Option (List (List Char))
  | [] => none
  | row :: rest =>
    if decide (2 ≤ row.length) && containsCI citLit (pyStrip (row.headD [])) then some row
    else findCitRow rest

/-- `int(cell.get_text(strip=True).replace(",", ""))`; `none` is the
`ValueError` that fails the whole attempt. -/
def parseCell (cell : List Char) : Option Int :=
  pyInt (removeCommas (pyStrip cell))

/-- `re.search(r"Citations.*?(\d+(?:,\d+)?)", text, I|S)` applied to the
digits: after the matched "Citations", the lazy gap stops at the first
digit; `\d+` takes the maximal run; the single optional `,\d+` group takes
one comma plus the following maximal digit run. -/
def grabNum (s : List Char) : Option Nat :=
  match s.dropWhile (fun c => !c.isDigit) with
  | [] => none
  | s' =>
    match s'.dropWhile Char.isDigit with
    | ',' :: r2 =>
      if (r2.takeWhile Char.isDigit).isEmpty then some (natOfDigits (s'.takeWhile Char.isDigit))
      else some (natOfDigits (s'.takeWhile Char.isDigit ++ r2.takeWhile Char.isDigit))
    | _ => some (natOfDigits (s'.takeWhile Char.isDigit))

/-- Leftmost-match search for the fallback regex: the match starts at the
first case-insensitive occurrence of "Citations" that is followed
(anywhere later, `re.DOTALL`) by a digit. -/
def regexFallback : List Char → Option Nat
  | [] => none
  | s@(_ :: t) =>
    match litCIAux citLit s with
    | some (_, r) =>
      match grabNum r with
      | some n => some n
      | none => regexFallback t
    | none => regexFallback t

/-- Methods 2 and 3: the first `gsc_rsb_std` cell if any exist, else the
regex fallback over the raw text. -/
def method2 (d : Doc) : Option Int :=
  match d.styledCells with
  | c :: _ => parseCell c
  | [] => (regexFallback d.raw).map Int.ofNat

/-- One attempt's extraction, exactly as the `try` body orders it:
method 1 (falling through to method 2 only when the table is absent or no
row matches — a found row whose cell fails `int` raises), then method 2
(a present cell that fails `int` raises), then method 3.  `none` models an
exception, which the retry loop catches. -/
def processDoc (d : Doc) : Option Int :=
  match d.statsTable with
  | some rows =>
    match findCitRow rows with
    | some row => parseCell (row.getD 1 [])
    | none => method2 d
  | none => method2 d

/-- The CAPTCHA / block-page test, reached only after all three methods
fail; it only selects which exception message is raised. -/
def containsCaptcha (raw : List Char) : Bool :=
  containsCS capLit raw || containsCI unusualLit (lowerStr raw)

def MAX_RETRIES : Nat := 5

/-- The retry loop of `get_citation_count_direct`: `f a` is the network
outcome of attempt `a` (`none` = `RequestException` / bad status, `some d` = a
successful response parsed as `d`).  `Except.error k` models `sys.exit(1)`
after `k` failed attempts; `Except.ok (a, v)` returns `v` on attempt `a`. -/
def attemptFrom (f : Nat → Option Doc) : Nat → Nat → Except Nat (Nat × Int)
  | a, 0 => Except.error (a - 1)
  | a, fuel + 1 =>
    match f a >>= processDoc with
    | some v => Except.ok (a, v)
    | none => attemptFrom f (a + 1) fuel

def get_citation_count_direct (f : Nat → Option Doc) : Except Nat (Nat × Int) :=
  attemptFrom f 1 MAX_RETRIES

theorem attemptFrom_step_fail (f : Nat → Option Doc) (a fuel : Nat)
    (h : f a >>= processDoc = none) :
    attemptFrom f a (fuel + 1) = attemptFrom f (a + 1) fuel := by
  simp [attemptFrom, h]

theorem attemptFrom_step_ok (f : Nat → Option Doc) (a fuel : Nat) (v : Int)
    (h : f a >>= processDoc = some v) :
    attemptFrom f a (fuel + 1) = Except.ok (a, v) := by
  simp [attemptFrom, h]

/-! ## Text patching: the three regex patterns as executable matchers

Each of the script's patterns `(g1)(\d+)(g3)` is embedded as a matcher
`List Char → Option (g1, d, g3, rest)` over a suffix of the file text,
deterministically implementing the regex's greedy/lazy backtracking
semantics on the concrete pattern.  `re.search` and `re.sub` are embedded
as a left-to-right scan over the text. -/

def squote : Char := Char.ofNat 39

def isQuote (c : Char) : Bool := c = squote || c = '"'

/-- A matching step: consume a prefix, return (consumed, rest). -/
def Step : Type := List Char → Option (List Char × List Char)

def andThen (a b : Step) : Step := fun s =>
  match a s with
  | none => none
  | some (x, r) =>
    match b r with
    | none => none
    | some (y, r2) => some (x ++ y, r2)

def litCI (l : List Char) : Step := fun s => litCIAux l s

/-- `\s*` (greedy, never fails). -/
def wsStep : Step := fun s => some (s.takeWhile isPySpace, s.dropWhile isPySpace)

/-- Greedy optional quote character (single or double). -/
def optQuoteStep : Step := fun s =>
  match s with
  | c :: t => if isQuote c then some ([c], t) else some ([], s)
  | [] => some ([], [])

/-- A single character satisfying `p`. -/
def charStep (p : Char → Bool) : Step := fun s =>
  match s with
  | c :: t => if p c then some ([c], t) else none
  | [] => none

/-- `\s*\n\s*` followed by a non-whitespace literal: consumes the maximal
whitespace run, which must contain a newline. -/
def wsNLStep : Step := fun s =>
  if (s.takeWhile isPySpace).contains '\n' then
    some (s.takeWhile isPySpace, s.dropWhile isPySpace)
  else none

/-- `[^x]*x`: consume up to and including the next occurrence of `stop`. -/
def throughChar (stop : Char) : Step := fun s =>
  match s.dropWhile (fun c => c ≠ stop) with
  | c :: r => some (s.takeWhile (fun c => c ≠ stop) ++ [c], r)
  | [] => none

/-- `\d+` (greedy, at least one digit). -/
def digitsNE : Step := fun s =>
  if (s.takeWhile Char.isDigit).isEmpty then none
  else some (s.takeWhile Char.isDigit, s.dropWhile Char.isDigit)

/-- Match groups of one pattern occurrence: (group 1, digits, group 3,
remainder of the text). -/
def G4 : Type := List Char × List Char × List Char × List Char

/-- A grouped matcher with a `Step` prefix merged into its group 1. -/
def tailGroups (pre : Step) (gm : List Char → Option G4) :
    List Char → Option G4 := fun s =>
  match pre s with
  | none => none
  | some (x, r) =>
    match gm r with
    | some (a, d, g3, rest) => some (x ++ a, d, g3, rest)
    | none => none

/-- Digit-run group then closing-quote group: the shared tail of both yaml
patterns. -/
def numEnd : List Char → Option G4 := fun s =>
  match digitsNE s with
  | none => none
  | some (d, r) =>
    match charStep isQuote r with
    | none => none
    | some (q, r2) => some ([], d, q, r2)

def dashNameLit : List Char := "- name:".toList

def gscLit : List Char := "google scholar citations".toList

def imageLit : List Char := "image:".toList

def countLit : List Char := "count:".toList

def nameLit : List Char := "name:".toList

/-- Group 1 of the strict yaml pattern: the dash-name label, optional quote,
the caption, optional quote, whitespace containing a newline, the image line
through its newline, then whitespace, the count label, whitespace and the
opening quote. -/
def strictPre : Step :=
  andThen (litCI dashNameLit)
    (andThen wsStep
      (andThen optQuoteStep
        (andThen (litCI gscLit)
          (andThen optQuoteStep
            (andThen wsNLStep
              (andThen (litCI imageLit)
                (andThen (throughChar '\n')
                  (andThen wsStep
                    (andThen (litCI countLit)
                      (andThen wsStep (charStep isQuote)))))))))))

def matchStrict : List Char → Option G4 := tailGroups strictPre numEnd

/-- Leading part of the loose pattern: the name label, whitespace, optional
quote, the caption, optional quote. -/
def loosePre : Step :=
  andThen (litCI nameLit)
    (andThen wsStep
      (andThen optQuoteStep (andThen (litCI gscLit) optQuoteStep)))

/-- Target of the lazy gap in the loose pattern: the count label,
whitespace, opening quote, digits, closing quote. -/
def looseTail : List Char → Option G4 :=
  tailGroups (andThen (litCI countLit) (andThen wsStep (charStep isQuote))) numEnd

/-- `[\s\S]*?` before `gm`: the lazy scan commits to the earliest position
where the full tail matches. -/
def gapScanG (gm : List Char → Option G4) : List Char → Option G4
  | [] => gm []
  | c :: t =>
    match gm (c :: t) with
    | some g => some g
    | none => (gapScanG gm t).map (fun g => (c :: g.1, g.2.1, g.2.2.1, g.2.2.2))

def matchLoose : List Char → Option G4 := tailGroups loosePre (gapScanG looseTail)

def imgLit : List Char := "<img".toList

def pTagLit : List Char := "<p".toList

def altLit : List Char := "alt=\"google scholar citations\"".toList

def dcLit : List Char := "data-count=\"".toList

/-- `[^>]*alt=\"GOOGLE SCHOLAR CITATIONS\"[^>]*/>` — the run up to the next
`>` must contain the alt literal and end in `/`. -/
def imgRunStep : Step := fun s =>
  if containsCI altLit (s.takeWhile (fun c => c ≠ '>'))
      && (s.takeWhile (fun c => c ≠ '>')).getLastD ' ' = '/' then
    match s.dropWhile (fun c => c ≠ '>') with
    | c :: rest => some (s.takeWhile (fun c => c ≠ '>') ++ [c], rest)
    | [] => none
  else none

/-- `data-count=\"(\d+)(\"[^>]*>)` tried at the current position. -/
def dcTry : List Char → Option G4 := fun s =>
  match litCIAux dcLit s with
  | none => none
  | some (a, r) =>
    match digitsNE r with
    | none => none
    | some (d, r1) =>
      match charStep (fun c => c = '"') r1 with
      | none => none
      | some (q, r2) =>
        match throughChar '>' r2 with
        | none => none
        | some (z, r3) => some (a, d, q ++ z, r3)

/-- `[^>]*data-count=\"...`: greedy `[^>]*` prefers the last viable
occurrence of the literal before the next `>`. -/
def dcScan : List Char → Option G4
  | [] => none
  | c :: t =>
    if c = '>' then none
    else
      match dcScan t with
      | some (a, d, g3, r) => some (c :: a, d, g3, r)
      | none => dcTry (c :: t)

/-- The full html pattern
`(<img[^>]*alt=\"GOOGLE SCHOLAR CITATIONS\"[^>]*/>\s*<p[^>]*data-count=\")(\d+)(\"[^>]*>)`. -/
def matchHtml : List Char → Option G4 :=
  tailGroups
    (andThen (litCI imgLit) (andThen imgRunStep (andThen wsStep (litCI pTagLit))))
    dcScan

/-! ## `re.search` / `re.sub` as fuel-indexed left-to-right scans

Fuel is instantiated with the text length; each step consumes at least one
character, so the wrappers compute the full scan. -/

def Matcher : Type := List Char → Option G4

/-- Global `re.sub` with replacement template `\g<1>{repl}\g<3>`. -/
def subF (m : Matcher) (repl : List Char) : Nat → List Char → List Char
  | 0, s => s
  | fuel + 1, s =>
    match m s with
    | some (g1, _, g3, rest) => g1 ++ repl ++ g3 ++ subF m repl fuel rest
    | none =>
      match s with
      | [] => []
      | c :: t => c :: subF m repl fuel t

/-- `re.sub(..., count=1)`: replace only the first match. -/
def subFirstF (m : Matcher) (repl : List Char) : Nat → List Char → List Char
  | 0, s => s
  | fuel + 1, s =>
    match m s with
    | some (g1, _, g3, rest) => g1 ++ repl ++ g3 ++ rest
    | none =>
      match s with
      | [] => []
      | c :: t => c :: subFirstF m repl fuel t

/-- All non-overlapping matches in scan order, each with the unmatched gap
preceding it, plus the trailing unmatched text. -/
def consGap (c : Char) :
    List (List Char × List Char × List Char × List Char) × List Char →
    List (List Char × List Char × List Char × List Char) × List Char
  | ([], fin) => ([], c :: fin)
  | ((gap, g) :: ms, fin) => ((c :: gap, g) :: ms, fin)

def matchesF (m : Matcher) :
    Nat → List Char → List (List Char × List Char × List Char × List Char) × List Char
  | 0, s => ([], s)
  | fuel + 1, s =>
    match m s with
    | some (g1, d, g3, rest) =>
      (([], g1, d, g3) :: (matchesF m fuel rest).1, (matchesF m fuel rest).2)
    | none =>
      match s with
      | [] => ([], [])
      | c :: t => consGap c (matchesF m fuel t)

/-- `re.search`: the first match, with its preceding gap and the remainder
after it. -/
def firstMatchF (m : Matcher) : Nat → List Char → Option (List Char × G4)
  | 0, _ => none
  | fuel + 1, s =>
    match m s with
    | some g => some ([], g)
    | none =>
      match s with
      | [] => none
      | c :: t => (firstMatchF m fuel t).map (fun p => (c :: p.1, p.2))

def pySearch (m : Matcher) (s : List Char) : Option (List Char × G4) :=
  firstMatchF m s.length s

def pySubAll (m : Matcher) (repl : List Char) (s : List Char) : List Char :=
  subF m repl s.length s

def pySubFirst (m : Matcher) (repl : List Char) (s : List Char) : List Char :=
  subFirstF m repl s.length s

def pyMatchesOf (m : Matcher) (s : List Char) :
    List (List Char × List Char × List Char × List Char) × List Char :=
  matchesF m s.length s

/-- The transformation `update_yaml_file` applies to the file text: strict pattern
searched first and substituted globally; otherwise the loose pattern is
searched and substituted with `count=1`; otherwise the text is unchanged. -/
def update_yaml_text (content : List Char) (n : Int) : List Char :=
  match pySearch matchStrict content with
  | some _ => pySubAll matchStrict (pyStr n) content
  | none =>
    match pySearch matchLoose content with
    | some _ => pySubFirst matchLoose (pyStr n) content
    | none => content

/-- The transformation `update_index_html` applies to the file text. -/
def update_html_text (content : List Char) (n : Int) : List Char :=
  match pySearch matchHtml content with
  | some _ => pySubAll matchHtml (pyStr n) content
  | none => content

/-! ## File system and orchestrator -/

/-- The two target files; `none` models a missing file. -/
structure FS where
  yaml : Option (List Char)
  html : Option (List Char)

/-- `update_yaml_file`: a missing file is skipped (the function returns
without raising); otherwise the text transformation is written back.  Its
`except` clause means it never propagates an error. -/
def update_yaml_file (y : Option (List Char)) (n : Int) : Option (List Char) :=
  y.map (fun c => update_yaml_text c n)

/-- `update_index_html`: a missing file makes `open` raise, which is caught
and answered with `sys.exit(1)` (`Except.error`). -/
def update_index_html (h : Option (List Char)) (n : Int) : Except Unit (List Char) :=
  match h with
  | none => Except.error ()
  | some c => Except.ok (update_html_text c n)

/-- `main` after the fetch: exit code 1 if the fetcher exhausts retries
(files untouched) or the html patch raises; exit code 0 otherwise. -/
def mainRun (f : Nat → Option Doc) (fs : FS) : FS × Nat :=
  match get_citation_count_direct f with
  | Except.error _ => (fs, 1)
  | Except.ok (_, v) =>
    let fs1 : FS := ⟨update_yaml_file fs.yaml v, fs.html⟩
    match update_index_html fs1.html v with
    | Except.error _ => (fs1, 1)
    | Except.ok h => (⟨fs1.yaml, some h⟩, 0)

example : natDigits 42 = ['4', '2'] := by decide

example : pyStr 57 = ['5', '7'] := by decide

example : pyInt ("-5".toList) = some (-5) := by decide

example : regexFallback ("Citations 1,234,567".toList) = some 1234 := by decide

example : processDoc ⟨none, [], "CAPTCHA Citations 42".toList⟩ = some 42 := by decide

example :
    processDoc ⟨some [[" Citations ".toList, "1,234".toList, "300".toList]], [], []⟩
      = some 1234 := by decide

def tYaml : List Char :=
  ("fun_facts:\n- name: \"PUBLICATIONS\"\n  image: fa-book\n  count: \"12\"\n- name: \"GOOGLE SCHOLAR CITATIONS\"\n  image: fa-quote-left\n  count: \"41\"\n- name: \"AWARDS\"\n  image: fa-trophy\n  count: \"3\"\n").toList

def tHtml : List Char :=
  ("<div><img src=\"i.png\" alt=\"GOOGLE SCHOLAR CITATIONS\" />\n<p class=\"fact-counter count\" data-count=\"41\">0</p>\n<p>GOOGLE SCHOLAR CITATIONS</p></div>").toList

example : (pyMatchesOf matchStrict tYaml).1.length = 1 := by decide

example : (pyMatchesOf matchHtml tHtml).1.length = 1 := by decide

example :
    update_yaml_text tYaml 57 =
      ("fun_facts:\n- name: \"PUBLICATIONS\"\n  image: fa-book\n  count: \"12\"\n- name: \"GOOGLE SCHOLAR CITATIONS\"\n  image: fa-quote-left\n  count: \"57\"\n- name: \"AWARDS\"\n  image: fa-trophy\n  count: \"3\"\n").toList := by decide

example :
    update_html_text tHtml 57 =
      ("<div><img src=\"i.png\" alt=\"GOOGLE SCHOLAR CITATIONS\" />\n<p class=\"fact-counter count\" data-count=\"57\">0</p>\n<p>GOOGLE SCHOLAR CITATIONS</p></div>").toList := by decide

example : update_yaml_text tYaml 41 = tYaml := by decide

example : update_html_text tHtml 41 = tHtml := by decide

def tYaml2 : List Char :=
  ("- name: \"GOOGLE SCHOLAR CITATIONS\"\n  image: a\n  count: \"41\"\n- name: \"GOOGLE SCHOLAR CITATIONS\"\n  image: b\n  count: \"99\"\n").toList

example :
    update_yaml_text tYaml2 7 =
      ("- name: \"GOOGLE SCHOLAR CITATIONS\"\n  image: a\n  count: \"7\"\n- name: \"GOOGLE SCHOLAR CITATIONS\"\n  image: b\n  count: \"7\"\n").toList := by decide

def tLoose : List Char :=
  ("name: GOOGLE SCHOLAR CITATIONS\n  other: \"x\"\n  count: \"41\"\n  count: \"99\"\n").toList

example :
    update_yaml_text tLoose 57 =
      ("name: GOOGLE SCHOLAR CITATIONS\n  other: \"x\"\n  count: \"57\"\n  count: \"99\"\n").toList := by decide

/-! ## Soundness of the matchers: a match decomposes its input -/

def StepSound (a : Step) : Prop :=
  ∀ s x r, a s = some (x, r) → s = x ++ r

def GSound (gm : List Char → Option G4) : Prop :=
  ∀ s g1 d g3 rest, gm s = some (g1, d, g3, rest) → s = g1 ++ d ++ g3 ++ rest

theorem litCIAux_sound : ∀ (l s x r : List Char), litCIAux l s = some (x, r) → s = x ++ r := by
  intro l
  induction l with
  | nil =>
    intro s x r h
    simp only [litCIAux, Option.some.injEq, Prod.mk.injEq] at h
    obtain ⟨rfl, rfl⟩ := h
    rfl
  | cons a as ih =>
    intro s x r h
    cases s with
    | nil => simp [litCIAux] at h
    | cons c cs =>
      rw [litCIAux] at h
      split at h
      · rw [Option.map_eq_some'] at h
        obtain ⟨⟨x', r'⟩, hm, he⟩ := h
        simp only [Prod.mk.injEq] at he
        obtain ⟨h1, h2⟩ := he
        rw [← h1, ← h2]
        simp only [List.cons_append, List.cons.injEq, true_and]
        exact ih cs x' r' hm
      · exact absurd h (by simp)

theorem andThen_sound {a b : Step} (ha : StepSound a) (hb : StepSound b) :
    StepSound (andThen a b) := by
  intro s x r h
  unfold andThen at h
  split at h
  · exact absurd h (by simp)
  next x1 r1 hm =>
    split at h
    · exact absurd h (by simp)
    next y r2 hn =>
      simp only [Option.some.injEq, Prod.mk.injEq] at h
      obtain ⟨h1, h2⟩ := h
      rw [← h1, ← h2, ha s x1 r1 hm, hb r1 y r2 hn, List.append_assoc]

theorem litCI_sound (l : List Char) : StepSound (litCI l) := by
  intro s x r h
  exact litCIAux_sound l s x r h

theorem wsStep_sound : StepSound wsStep := by
  intro s x r h
  simp only [wsStep, Option.some.injEq, Prod.mk.injEq] at h
  obtain ⟨rfl, rfl⟩ := h
  exact (List.takeWhile_append_dropWhile isPySpace s).symm

theorem optQuoteStep_sound : StepSound optQuoteStep := by
  intro s x r h
  cases s with
  | nil =>
    simp only [optQuoteStep, Option.some.injEq, Prod.mk.injEq] at h
    obtain ⟨rfl, rfl⟩ := h
    rfl
  | cons c t =>
    simp only [optQuoteStep] at h
    split at h <;>
      simp only [Option.some.injEq, Prod.mk.injEq] at h <;>
      obtain ⟨rfl, rfl⟩ := h <;> rfl

theorem charStep_sound (p : Char → Bool) : StepSound (charStep p) := by
  intro s x r h
  cases s with
  | nil => simp [charStep] at h
  | cons c t =>
    simp only [charStep] at h
    split at h
    · simp only [Option.some.injEq, Prod.mk.injEq] at h
      obtain ⟨rfl, rfl⟩ := h
      rfl
    · simp at h

theorem wsNLStep_sound : StepSound wsNLStep := by
  intro s x r h
  unfold wsNLStep at h
  split at h
  · simp only [Option.some.injEq, Prod.mk.injEq] at h
    obtain ⟨rfl, rfl⟩ := h
    exact (List.takeWhile_append_dropWhile isPySpace s).symm
  · simp at h

theorem throughChar_sound (stop : Char) : StepSound (throughChar stop) := by
  intro s x r h
  unfold throughChar at h
  split at h
  next c rest heq =>
    simp only [Option.some.injEq, Prod.mk.injEq] at h
    obtain ⟨h1, h2⟩ := h
    have e := List.takeWhile_append_dropWhile (fun c => decide (c ≠ stop)) s
    rw [heq] at e
    rw [← h1, ← h2, List.append_assoc, List.singleton_append, e]
  · simp at h

theorem digitsNE_sound : StepSound digitsNE := by
  intro s x r h
  unfold digitsNE at h
  split at h
  · simp at h
  · simp only [Option.some.injEq, Prod.mk.injEq] at h
    obtain ⟨rfl, rfl⟩ := h
    exact (List.takeWhile_append_dropWhile Char.isDigit s).symm

theorem imgRunStep_sound : StepSound imgRunStep := by
  intro s x r h
  unfold imgRunStep at h
  split at h
  · split at h
    next c rest heq =>
      simp only [Option.some.injEq, Prod.mk.injEq] at h
      obtain ⟨h1, h2⟩ := h
      have e := List.takeWhile_append_dropWhile (fun c => decide (c ≠ '>')) s
      rw [heq] at e
      rw [← h1, ← h2, List.append_assoc, List.singleton_append, e]
    · simp at h
  · simp at h

theorem tailGroups_sound {pre : Step} {gm : List Char → Option G4}
    (hp : StepSound pre) (hg : GSound gm) : GSound (tailGroups pre gm) := by
  intro s g1 d g3 rest h
  unfold tailGroups at h
  split at h
  · exact absurd h (by simp)
  next x r hm =>
    split at h
    next a d' g3' rest' hn =>
      injection h with h0
      injection h0 with e1 h0b
      injection h0b with e2 h0c
      injection h0c with e3 e4
      rw [← e1, ← e2, ← e3, ← e4, hp s x r hm, hg r a d' g3' rest' hn]
      simp [List.append_assoc]
    · exact absurd h (by simp)

theorem numEnd_sound : GSound numEnd := by
  intro s g1 d g3 rest h
  unfold numEnd at h
  split at h
  · exact absurd h (by simp)
  next d' r hm =>
    split at h
    · exact absurd h (by simp)
    next q r2 hn =>
      injection h with h0
      injection h0 with e1 h0b
      injection h0b with e2 h0c
      injection h0c with e3 e4
      rw [← e1, ← e2, ← e3, ← e4, digitsNE_sound s d' r hm, charStep_sound _ r q r2 hn]
      simp

theorem gapScanG_sound {gm : List Char → Option G4} (hg : GSound gm) :
    GSound (gapScanG gm) := by
  intro s
  induction s with
  | nil =>
    intro g1 d g3 rest h
    exact hg [] g1 d g3 rest h
  | cons c t ih =>
    intro g1 d g3 rest h
    rw [gapScanG] at h
    split at h
    next g hm =>
      simp only [Option.some.injEq] at h
      subst h
      exact hg (c :: t) _ _ _ _ hm
    · rw [Option.map_eq_some'] at h
      obtain ⟨⟨a, d', g3', rest'⟩, hm, he⟩ := h
      simp only [Prod.mk.injEq] at he
      obtain ⟨rfl, rfl, rfl, rfl⟩ := he
      simp only [List.cons_append, List.cons.injEq, true_and]
      exact ih a d g3 rest hm

theorem dcTry_sound : GSound dcTry := by
  intro s g1 d g3 rest h
  unfold dcTry at h
  split at h
  · exact absurd h (by simp)
  next a r hm =>
    split at h
    · exact absurd h (by simp)
    next d' r1 hd =>
      split at h
      · exact absurd h (by simp)
      next q r2 hq =>
        split at h
        · exact absurd h (by simp)
        next z r3 hz =>
          injection h with h0
          injection h0 with e1 h0b
          injection h0b with e2 h0c
          injection h0c with e3 e4
          rw [← e1, ← e2, ← e3, ← e4, litCIAux_sound dcLit s a r hm,
            digitsNE_sound r d' r1 hd, charStep_sound _ r1 q r2 hq,
            throughChar_sound '>' r2 z r3 hz]
          simp [List.append_assoc]

theorem dcScan_sound : GSound dcScan := by
  intro s
  induction s with
  | nil =>
    intro g1 d g3 rest h
    simp [dcScan] at h
  | cons c t ih =>
    intro g1 d g3 rest h
    rw [dcScan] at h
    split at h
    · exact absurd h (by simp)
    · split at h
      next a d' g3' r hm =>
        simp only [Option.some.injEq, Prod.mk.injEq] at h
        obtain ⟨rfl, rfl, rfl, rfl⟩ := h
        simp only [List.cons_append, List.cons.injEq, true_and]
        exact ih a d g3 rest hm
      · exact dcTry_sound (c :: t) g1 d g3 rest h

theorem matchStrict_sound : GSound matchStrict := by
  unfold matchStrict
  refine tailGroups_sound ?_ numEnd_sound
  unfold strictPre
  exact andThen_sound (litCI_sound _)
    (andThen_sound wsStep_sound
      (andThen_sound optQuoteStep_sound
        (andThen_sound (litCI_sound _)
          (andThen_sound optQuoteStep_sound
            (andThen_sound wsNLStep_sound
              (andThen_sound (litCI_sound _)
                (andThen_sound (throughChar_sound _)
                  (andThen_sound wsStep_sound
                    (andThen_sound (litCI_sound _)
                      (andThen_sound wsStep_sound (charStep_sound _)))))))))))

theorem matchLoose_sound : GSound matchLoose := by
  unfold matchLoose
  refine tailGroups_sound ?_ (gapScanG_sound ?_)
  · unfold loosePre
    exact andThen_sound (litCI_sound _)
      (andThen_sound wsStep_sound
        (andThen_sound optQuoteStep_sound
          (andThen_sound (litCI_sound _) optQuoteStep_sound)))
  · unfold looseTail
    exact tailGroups_sound
      (andThen_sound (litCI_sound _) (andThen_sound wsStep_sound (charStep_sound _)))
      numEnd_sound

theorem matchHtml_sound : GSound matchHtml := by
  unfold matchHtml
  exact tailGroups_sound
    (andThen_sound (litCI_sound _)
      (andThen_sound imgRunStep_sound (andThen_sound wsStep_sound (litCI_sound _))))
    dcScan_sound

/-! ## Relating substitution to the match decomposition -/

/-- Reassemble the text with every match's digits replaced by `r`. -/
def renderWith (r : List Char) :
    List (List Char × List Char × List Char × List Char) → List Char → List Char
  | [], fin => fin
  | (gap, g1, _, g3) :: ms, fin => gap ++ g1 ++ r ++ g3 ++ renderWith r ms fin

/-- Reassemble the text with every match's own digits: the identity
decomposition. -/
def renderOrig :
    List (List Char × List Char × List Char × List Char) → List Char → List Char
  | [], fin => fin
  | (gap, g1, d, g3) :: ms, fin => gap ++ g1 ++ d ++ g3 ++ renderOrig ms fin

theorem renderWith_consGap (r : List Char) (c : Char)
    (p : List (List Char × List Char × List Char × List Char) × List Char) :
    renderWith r (consGap c p).1 (consGap c p).2 = c :: renderWith r p.1 p.2 := by
  obtain ⟨ms, fin⟩ := p
  cases ms with
  | nil => rfl
  | cons q ms' =>
    obtain ⟨gap, g1, d, g3⟩ := q
    simp [consGap, renderWith]

theorem renderOrig_consGap (c : Char)
    (p : List (List Char × List Char × List Char × List Char) × List Char) :
    renderOrig (consGap c p).1 (consGap c p).2 = c :: renderOrig p.1 p.2 := by
  obtain ⟨ms, fin⟩ := p
  cases ms with
  | nil => rfl
  | cons q ms' =>
    obtain ⟨gap, g1, d, g3⟩ := q
    simp [consGap, renderOrig]

theorem subF_succ (m : Matcher) (r : List Char) (n : Nat) (s : List Char) :
    subF m r (n + 1) s =
      (match m s with
        | some (g1, _, g3, rest) => g1 ++ r ++ g3 ++ subF m r n rest
        | none =>
          match s with
          | [] => []
          | c :: t => c :: subF m r n t) := rfl

theorem matchesF_succ (m : Matcher) (n : Nat) (s : List Char) :
    matchesF m (n + 1) s =
      (match m s with
        | some (g1, d, g3, rest) =>
          (([], g1, d, g3) :: (matchesF m n rest).1, (matchesF m n rest).2)
        | none =>
          match s with
          | [] => ([], [])
          | c :: t => consGap c (matchesF m n t)) := rfl

theorem subFirstF_succ (m : Matcher) (r : List Char) (n : Nat) (s : List Char) :
    subFirstF m r (n + 1) s =
      (match m s with
        | some (g1, _, g3, rest) => g1 ++ r ++ g3 ++ rest
        | none =>
          match s with
          | [] => []
          | c :: t => c :: subFirstF m r n t) := rfl

theorem firstMatchF_succ (m : Matcher) (n : Nat) (s : List Char) :
    firstMatchF m (n + 1) s =
      (match m s with
        | some g => some ([], g)
        | none =>
          match s with
          | [] => none
          | c :: t => (firstMatchF m n t).map (fun p => (c :: p.1, p.2))) := rfl

/-- Global substitution renders every found match with the replacement. -/
theorem subF_eq_render (m : Matcher) (r : List Char) :
    ∀ fuel s, subF m r fuel s = renderWith r (matchesF m fuel s).1 (matchesF m fuel s).2 := by
  intro fuel
  induction fuel with
  | zero => intro s; rfl
  | succ n ih =>
    intro s
    rw [subF_succ, matchesF_succ]
    cases hm : m s with
    | some g =>
      obtain ⟨g1, d, g3, rest⟩ := g
      simp only [renderWith]
      rw [ih rest]
      simp [List.append_assoc]
    | none =>
      cases s with
      | nil => rfl
      | cons c t =>
        show c :: subF m r n t = renderWith r (consGap c (matchesF m n t)).1 (consGap c (matchesF m n t)).2
        rw [renderWith_consGap, ih t]

/-- The found matches decompose the text exactly (given matcher
soundness). -/
theorem matchesF_decomp (m : Matcher) (hs : GSound m) :
    ∀ fuel s, renderOrig (matchesF m fuel s).1 (matchesF m fuel s).2 = s := by
  intro fuel
  induction fuel with
  | zero => intro s; rfl
  | succ n ih =>
    intro s
    rw [matchesF_succ]
    cases hm : m s with
    | some g =>
      obtain ⟨g1, d, g3, rest⟩ := g
      simp only [renderOrig]
      rw [ih rest, hs s g1 d g3 rest hm]
      simp
    | none =>
      cases s with
      | nil => rfl
      | cons c t =>
        show renderOrig (consGap c (matchesF m n t)).1 (consGap c (matchesF m n t)).2 = c :: t
        rw [renderOrig_consGap, ih t]

/-- `count=1` substitution replaces exactly the first match, leaving the
remainder untouched. -/
theorem subFirstF_eq (m : Matcher) (r : List Char) :
    ∀ fuel s,
      subFirstF m r fuel s =
        (match firstMatchF m fuel s with
          | some (gap, g1, _, g3, rest) => gap ++ g1 ++ r ++ g3 ++ rest
          | none => s) := by
  intro fuel
  induction fuel with
  | zero => intro s; rfl
  | succ n ih =>
    intro s
    rw [subFirstF_succ, firstMatchF_succ]
    cases hm : m s with
    | some g =>
      obtain ⟨g1, d, g3, rest⟩ := g
      simp
    | none =>
      cases s with
      | nil => rfl
      | cons c t =>
        show c :: subFirstF m r n t =
          (match (firstMatchF m n t).map (fun p => (c :: p.1, p.2)) with
            | some (gap, g1, _, g3, rest) => gap ++ g1 ++ r ++ g3 ++ rest
            | none => c :: t)
        rw [ih t]
        cases hf : firstMatchF m n t with
        | none => simp
        | some p =>
          obtain ⟨gap, g1, d, g3, rest⟩ := p
          simp

/-- `re.search` fails exactly when the match list is empty. -/
theorem firstMatchF_none_iff (m : Matcher) :
    ∀ fuel s, firstMatchF m fuel s = none ↔ (matchesF m fuel s).1 = [] := by
  intro fuel
  induction fuel with
  | zero => intro s; simp [firstMatchF, matchesF]
  | succ n ih =>
    intro s
    rw [firstMatchF_succ, matchesF_succ]
    cases hm : m s with
    | some g =>
      obtain ⟨g1, d, g3, rest⟩ := g
      simp
    | none =>
      cases s with
      | nil => simp
      | cons c t =>
        show (firstMatchF m n t).map (fun p => (c :: p.1, p.2)) = none ↔ (consGap c (matchesF m n t)).1 = []
        rw [Option.map_eq_none', ih t]
        rcases hms : matchesF m n t with ⟨ms, fin⟩
        cases ms with
        | nil => simp [consGap]
        | cons q ms' =>
          obtain ⟨gap, g⟩ := q
          simp [consGap]

/-- The first match decomposes the text (given matcher soundness). -/
theorem firstMatchF_decomp (m : Matcher) (hs : GSound m) :
    ∀ fuel s gap g1 d g3 rest,
      firstMatchF m fuel s = some (gap, g1, d, g3, rest) →
      s = gap ++ g1 ++ d ++ g3 ++ rest := by
  intro fuel
  induction fuel with
  | zero => intro s gap g1 d g3 rest h; simp [firstMatchF] at h
  | succ n ih =>
    intro s gap g1 d g3 rest h
    rw [firstMatchF_succ] at h
    cases hm : m s with
    | some g =>
      rw [hm] at h
      simp only at h
      injection h with h0
      injection h0 with e1 e2
      rw [e2] at hm
      rw [← e1]
      have := hs s g1 d g3 rest hm
      simpa using this
    | none =>
      rw [hm] at h
      cases s with
      | nil => simp at h
      | cons c t =>
        simp only at h
        rw [Option.map_eq_some'] at h
        obtain ⟨⟨gap', g'⟩, hf, he⟩ := h
        obtain ⟨g1', d', g3', rest'⟩ := g'
        injection he with e1 e2
        injection e2 with f1 f2
        injection f2 with f3 f4
        injection f4 with f5 f6
        rw [← e1, ← f1, ← f3, ← f5, ← f6]
        simp only [List.cons_append, List.cons.injEq, true_and]
        have := ih t gap' g1' d' g3' rest' hf
        simpa [List.append_assoc] using this

/-- Matches all holding the replacement render back to the original. -/
theorem renderWith_eq_renderOrig (r : List Char)
    (ms : List (List Char × List Char × List Char × List Char)) (fin : List Char)
    (h : ∀ gap g1 d g3, (gap, g1, d, g3) ∈ ms → d = r) :
    renderWith r ms fin = renderOrig ms fin := by
  induction ms with
  | nil => rfl
  | cons q ms' ih =>
    obtain ⟨gap, g1, d, g3⟩ := q
    rw [renderWith, renderOrig]
    rw [h gap g1 d g3 (by simp)]
    rw [ih (fun gap' g1' d' g3' hm => h gap' g1' d' g3' (by simp [hm]))]

/-! ## Parsing digit strings -/

theorem dropWhile_all_false {p : Char → Bool} (s : List Char)
    (h : ∀ c ∈ s, p c = false) : s.dropWhile p = s := by
  cases s with
  | nil => rfl
  | cons c t =>
    rw [List.dropWhile_cons]
    simp [h c (by simp)]

theorem digit_not_pyspace (c : Char) (h : c.isDigit = true) : isPySpace c = false := by
  by_contra hb
  rw [Bool.not_eq_false] at hb
  simp only [isPySpace, Bool.or_eq_true, decide_eq_true_eq] at hb
  rcases hb with ((((h1 | h2) | h3) | h4) | h5) | h6 <;> subst_vars <;>
    exact absurd h (by decide)

theorem pyStrip_digits (s : List Char) (h : s.all Char.isDigit = true) :
    pyStrip s = s := by
  unfold pyStrip
  have hall : ∀ c ∈ s, Char.isDigit c = true := List.all_eq_true.mp h
  rw [dropWhile_all_false s (fun c hc => digit_not_pyspace c (hall c hc))]
  rw [dropWhile_all_false s.reverse
    (fun c hc => digit_not_pyspace c (hall c (List.mem_reverse.mp hc)))]
  exact List.reverse_reverse s

theorem pyInt_digits (s : List Char) (hne : s ≠ []) (h : s.all Char.isDigit = true) :
    pyInt s = some ((natOfDigits s : Int)) := by
  cases s with
  | nil => exact absurd rfl hne
  | cons c t' =>
    have hc : c.isDigit = true := List.all_eq_true.mp h c (by simp)
    have hd : ¬ (c = '-') := by
      intro he
      rw [he] at hc
      exact absurd hc (by decide)
    have hp : ¬ (c = '+') := by
      intro he
      rw [he] at hc
      exact absurd hc (by decide)
    simp only [pyInt]
    rw [pyStrip_digits _ h]
    simp [hd, hp, h]

/-! ## Characterizing the fallback regex -/

theorem regexFallback_cons (c : Char) (t : List Char) :
    regexFallback (c :: t) =
      (match litCIAux citLit (c :: t) with
        | some (_, r) =>
          (match grabNum r with
            | some n => some n
            | none => regexFallback t)
        | none => regexFallback t) := rfl

theorem litCIAux_append :
    ∀ (l s x a : List Char), litCIAux l s = some (a, []) → litCIAux l (s ++ x) = some (a, x) := by
  intro l
  induction l with
  | nil =>
    intro s x a h
    simp only [litCIAux, Option.some.injEq, Prod.mk.injEq] at h
    obtain ⟨h1, h2⟩ := h
    rw [h2, ← h1]
    rfl
  | cons b bs ih =>
    intro s x a h
    cases s with
    | nil => simp [litCIAux] at h
    | cons c cs =>
      rw [List.cons_append, litCIAux]
      rw [litCIAux] at h
      split at h
      next hb =>
        rw [if_pos hb]
        rw [Option.map_eq_some'] at h
        obtain ⟨⟨a', r'⟩, hm, he⟩ := h
        dsimp only at he
        injection he with e1 e2
        rw [e2] at hm
        rw [ih cs x a' hm]
        simp [← e1]
      next hb => exact absurd h (by simp)

/-- The fallback scan skips a prefix at whose positions the literal fails. -/
theorem regexFallback_append_skip :
    ∀ (p s : List Char),
      (∀ i, i < p.length → litCIAux citLit (p.drop i ++ s) = none) →
      regexFallback (p ++ s) = regexFallback s := by
  intro p
  induction p with
  | nil => intro s h; rfl
  | cons c p' ih =>
    intro s h
    have h0 := h 0 (by simp)
    simp only [List.drop_zero, List.cons_append] at h0
    rw [List.cons_append, regexFallback_cons, h0]
    exact ih s (fun i hi => by
      have := h (i + 1) (by simpa using Nat.succ_lt_succ hi)
      simpa using this)

theorem takeWhile_append_of_all {p : Char → Bool} (l1 l2 : List Char)
    (h : ∀ c ∈ l1, p c = true) :
    (l1 ++ l2).takeWhile p = l1 ++ l2.takeWhile p := by
  induction l1 with
  | nil => rfl
  | cons c t ih =>
    have hc := h c (by simp)
    have ht := ih (fun c' hc' => h c' (by simp [hc']))
    simp [List.takeWhile_cons, hc, ht]

theorem dropWhile_append_of_all {p : Char → Bool} (l1 l2 : List Char)
    (h : ∀ c ∈ l1, p c = true) :
    (l1 ++ l2).dropWhile p = l2.dropWhile p := by
  induction l1 with
  | nil => rfl
  | cons c t ih =>
    have hc := h c (by simp)
    have ht := ih (fun c' hc' => h c' (by simp [hc']))
    simp [List.dropWhile_cons, hc, ht]

theorem takeWhile_eq_nil_of_head {p : Char → Bool} (l : List Char)
    (h : p (l.headD ' ') = false) : l.takeWhile p = [] := by
  cases l with
  | nil => rfl
  | cons c t =>
    rw [List.takeWhile_cons]
    simp only [List.headD_cons] at h
    simp [h]

theorem dropWhile_eq_self_of_head {p : Char → Bool} (l : List Char)
    (h : p (l.headD ' ') = false) : l.dropWhile p = l := by
  cases l with
  | nil => rfl
  | cons c t =>
    rw [List.dropWhile_cons]
    simp only [List.headD_cons] at h
    simp [h]

theorem grabNum_eq (s u : List Char)
    (hu : s.dropWhile (fun c => !c.isDigit) = u) (hne : u ≠ []) :
    grabNum s =
      (match u.dropWhile Char.isDigit with
        | ',' :: r2 =>
          if (r2.takeWhile Char.isDigit).isEmpty then
            some (natOfDigits (u.takeWhile Char.isDigit))
          else some (natOfDigits (u.takeWhile Char.isDigit ++ r2.takeWhile Char.isDigit))
        | _ => some (natOfDigits (u.takeWhile Char.isDigit))) := by
  unfold grabNum
  rw [hu]
  cases u with
  | nil => exact absurd rfl hne
  | cons c t => rfl

/-- The digits captured by the fallback regex: the first digit run after the
gap, plus exactly one optional comma group; anything after the second run
(another separator included) is not captured. -/
theorem grabNum_spec (gap d1 d2 rest : List Char)
    (hgap : ∀ c ∈ gap, c.isDigit = false)
    (hd1ne : d1 ≠ []) (hd1 : ∀ c ∈ d1, c.isDigit = true)
    (hd2ne : d2 ≠ []) (hd2 : ∀ c ∈ d2, c.isDigit = true)
    (hrest : (rest.headD ' ').isDigit = false) :
    grabNum (gap ++ d1 ++ ',' :: (d2 ++ rest)) = some (natOfDigits (d1 ++ d2)) := by
  cases d1 with
  | nil => exact absurd rfl hd1ne
  | cons e d1' =>
    have he : e.isDigit = true := hd1 e (by simp)
    have hu : (gap ++ e :: d1' ++ ',' :: (d2 ++ rest)).dropWhile (fun c => !c.isDigit)
        = e :: (d1' ++ ',' :: (d2 ++ rest)) := by
      rw [List.append_assoc]
      rw [dropWhile_append_of_all gap _ (fun c hc => by simp [hgap c hc])]
      rw [List.cons_append]
      exact dropWhile_eq_self_of_head (p := fun c => !c.isDigit)
        (e :: (d1' ++ ',' :: (d2 ++ rest))) (by simp [he])
    have htake : (e :: (d1' ++ ',' :: (d2 ++ rest))).takeWhile Char.isDigit = e :: d1' := by
      rw [← List.cons_append]
      rw [takeWhile_append_of_all _ _ hd1]
      rw [takeWhile_eq_nil_of_head (p := Char.isDigit) (',' :: (d2 ++ rest))
        (by simp only [List.headD_cons]; decide)]
      simp
    have hdrop : (e :: (d1' ++ ',' :: (d2 ++ rest))).dropWhile Char.isDigit
        = ',' :: (d2 ++ rest) := by
      rw [← List.cons_append]
      rw [dropWhile_append_of_all _ _ hd1]
      exact dropWhile_eq_self_of_head (p := Char.isDigit) (',' :: (d2 ++ rest))
        (by simp only [List.headD_cons]; decide)
    have htake2 : (d2 ++ rest).takeWhile Char.isDigit = d2 := by
      rw [takeWhile_append_of_all _ _ hd2]
      rw [takeWhile_eq_nil_of_head (p := Char.isDigit) rest hrest]
      simp
    have hne2 : d2.isEmpty = false := by
      cases d2 with
      | nil => exact absurd rfl hd2ne
      | cons _ _ => rfl
    rw [grabNum_eq _ _ hu (by simp)]
    rw [hdrop]
    simp [htake, htake2, hne2]

/-! ## Retry loop lemmas -/

theorem attemptFrom_succ (f : Nat → Option Doc) (a fuel : Nat) :
    attemptFrom f a (fuel + 1) =
      (match f a >>= processDoc with
        | some v => Except.ok (a, v)
        | none => attemptFrom f (a + 1) fuel) := rfl

theorem attemptFrom_congr :
    ∀ (fuel a : Nat) (f g : Nat → Option Doc),
      (∀ i, a ≤ i → i < a + fuel → f i = g i) →
      attemptFrom f a fuel = attemptFrom g a fuel := by
  intro fuel
  induction fuel with
  | zero => intro a f g h; rfl
  | succ n ih =>
    intro a f g h
    rw [attemptFrom_succ, attemptFrom_succ]
    rw [h a (Nat.le_refl a) (by omega)]
    cases hx : g a >>= processDoc with
    | some v => rfl
    | none => exact ih (a + 1) f g (fun i h1 h2 => h i (by omega) (by omega))

/-! ## Claim C1 -/

def capDoc : Doc := ⟨none, [], "CAPTCHA Citations 42".toList⟩

/-- Claim C1 counterexample: a response whose text holds the CAPTCHA marker
but also matches the regex fallback is not treated as a failure; the count
extracted from that very response is returned on the first attempt. -/
theorem c1_captcha_counterexample :
    containsCaptcha capDoc.raw = true ∧
    processDoc capDoc = some 42 ∧
    get_citation_count_direct (fun _ => some capDoc) = Except.ok (1, 42) :=
  ⟨by decide, by decide, rfl⟩

/-- Claim C1 (amended): a fetched response whose text holds a CAPTCHA or
bot-challenge marker raises and triggers a retry only when all three
extraction strategies fail on it; in that case the loop moves on to the
next attempt. -/
theorem c1_captcha_retry_amended (f : Nat → Option Doc) (a fuel : Nat) (d : Doc)
    (hf : f a = some d) (_hc : containsCaptcha d.raw = true)
    (hp : processDoc d = none) :
    attemptFrom f a (fuel + 1) = attemptFrom f (a + 1) fuel :=
  attemptFrom_step_fail f a fuel (by rw [hf]; exact hp)

def capDoc2 : Doc := ⟨none, [], "CAPTCHA page".toList⟩

/-- Claim C1 witness. -/
theorem c1_captcha_retry_witness :
    attemptFrom (fun _ => some capDoc2) 1 5 = attemptFrom (fun _ => some capDoc2) 2 4 :=
  c1_captcha_retry_amended (fun _ => some capDoc2) 1 4 capDoc2 rfl (by decide) (by decide)

/-! ## Claim C2 -/

def noMatchDoc : Doc := ⟨none, [], "nothing to see here".toList⟩

def goodDoc : Doc := ⟨none, [], "Citations 42".toList⟩

def c2Seq : Nat → Option Doc := fun a => if a = 1 then some noMatchDoc else some goodDoc

/-- Claim C2 counterexample: an attempt on which no extraction strategy
matches is not fatal; a further fetch is attempted and its result is
returned, so the process does not exit after the parse failure. -/
theorem c2_parse_failure_counterexample :
    processDoc noMatchDoc = none ∧
    get_citation_count_direct c2Seq = Except.ok (2, 42) :=
  ⟨by decide, rfl⟩

/-- Claim C2 (amended): a document on which no strategy matches fails that
attempt and is retried like any other failure; only when all five attempts
fail does the process exit with non-zero status, and in that case no
target file is modified. -/
theorem c2_parse_failure_amended (f : Nat → Option Doc) (fs : FS)
    (h : ∀ a, 1 ≤ a → a ≤ 5 → (f a >>= processDoc) = none) :
    get_citation_count_direct f = Except.error 5 ∧ mainRun f fs = (fs, 1) := by
  have e1 : attemptFrom f 1 5 = attemptFrom f 2 4 :=
    attemptFrom_step_fail f 1 4 (h 1 (by omega) (by omega))
  have e2 : attemptFrom f 2 4 = attemptFrom f 3 3 :=
    attemptFrom_step_fail f 2 3 (h 2 (by omega) (by omega))
  have e3 : attemptFrom f 3 3 = attemptFrom f 4 2 :=
    attemptFrom_step_fail f 3 2 (h 3 (by omega) (by omega))
  have e4 : attemptFrom f 4 2 = attemptFrom f 5 1 :=
    attemptFrom_step_fail f 4 1 (h 4 (by omega) (by omega))
  have e5 : attemptFrom f 5 1 = attemptFrom f 6 0 :=
    attemptFrom_step_fail f 5 0 (h 5 (by omega) (by omega))
  have hrun : get_citation_count_direct f = Except.error 5 := by
    unfold get_citation_count_direct MAX_RETRIES
    rw [e1, e2, e3, e4, e5]
    rfl
  refine ⟨hrun, ?_⟩
  unfold mainRun
  rw [hrun]

/-- Claim C2 witness. -/
theorem c2_parse_failure_witness :
    get_citation_count_direct (fun _ => some noMatchDoc) = Except.error 5 ∧
    mainRun (fun _ => some noMatchDoc) ⟨some tYaml, some tHtml⟩ =
      (⟨some tYaml, some tHtml⟩, 1) :=
  c2_parse_failure_amended (fun _ => some noMatchDoc) ⟨some tYaml, some tHtml⟩
    (fun a h1 h2 => (by decide : processDoc noMatchDoc = none))

/-! ## Claim C7 -/

/-- Claim C7: the retry budget is exactly five attempts: four network
failures followed by a success return the success as attempt five; five
consecutive failures exit non-zero after exactly five attempts; and the
loop never consults any attempt beyond the fifth. -/
theorem c7_retry_budget :
    (∀ (f : Nat → Option Doc) (d : Doc) (v : Int),
        (∀ a, 1 ≤ a → a ≤ 4 → f a = none) → f 5 = some d → processDoc d = some v →
        get_citation_count_direct f = Except.ok (5, v)) ∧
    (∀ f : Nat → Option Doc,
        (∀ a, 1 ≤ a → a ≤ 5 → f a = none) →
        get_citation_count_direct f = Except.error 5) ∧
    (∀ f g : Nat → Option Doc,
        (∀ a, 1 ≤ a → a ≤ 5 → f a = g a) →
        get_citation_count_direct f = get_citation_count_direct g) := by
  refine ⟨?_, ?_, ?_⟩
  · intro f d v h h5 hv
    have e1 : attemptFrom f 1 5 = attemptFrom f 2 4 :=
      attemptFrom_step_fail f 1 4 (by rw [h 1 (by omega) (by omega)]; rfl)
    have e2 : attemptFrom f 2 4 = attemptFrom f 3 3 :=
      attemptFrom_step_fail f 2 3 (by rw [h 2 (by omega) (by omega)]; rfl)
    have e3 : attemptFrom f 3 3 = attemptFrom f 4 2 :=
      attemptFrom_step_fail f 3 2 (by rw [h 3 (by omega) (by omega)]; rfl)
    have e4 : attemptFrom f 4 2 = attemptFrom f 5 1 :=
      attemptFrom_step_fail f 4 1 (by rw [h 4 (by omega) (by omega)]; rfl)
    have e5 : attemptFrom f 5 1 = Except.ok (5, v) :=
      attemptFrom_step_ok f 5 0 v (by rw [h5]; exact hv)
    unfold get_citation_count_direct MAX_RETRIES
    rw [e1, e2, e3, e4, e5]
  · intro f h
    have e1 : attemptFrom f 1 5 = attemptFrom f 2 4 :=
      attemptFrom_step_fail f 1 4 (by rw [h 1 (by omega) (by omega)]; rfl)
    have e2 : attemptFrom f 2 4 = attemptFrom f 3 3 :=
      attemptFrom_step_fail f 2 3 (by rw [h 2 (by omega) (by omega)]; rfl)
    have e3 : attemptFrom f 3 3 = attemptFrom f 4 2 :=
      attemptFrom_step_fail f 3 2 (by rw [h 3 (by omega) (by omega)]; rfl)
    have e4 : attemptFrom f 4 2 = attemptFrom f 5 1 :=
      attemptFrom_step_fail f 4 1 (by rw [h 4 (by omega) (by omega)]; rfl)
    have e5 : attemptFrom f 5 1 = attemptFrom f 6 0 :=
      attemptFrom_step_fail f 5 0 (by rw [h 5 (by omega) (by omega)]; rfl)
    unfold get_citation_count_direct MAX_RETRIES
    rw [e1, e2, e3, e4, e5]
    rfl
  · intro f g h
    exact attemptFrom_congr 5 1 f g (fun i h1 h2 => h i h1 (by omega))

def c7F : Nat → Option Doc := fun a => if a = 5 then some goodDoc else none

def c7G : Nat → Option Doc := fun a => if a ≤ 5 then c7F a else some goodDoc

/-- Claim C7 witness. -/
theorem c7_retry_budget_witness :
    get_citation_count_direct c7F = Except.ok (5, 42) ∧
    get_citation_count_direct (fun _ => none) = Except.error 5 ∧
    get_citation_count_direct c7F = get_citation_count_direct c7G :=
  ⟨c7_retry_budget.1 c7F goodDoc 42
      (fun a h1 h2 => by simp only [c7F]; rw [if_neg (by omega)])
      (by simp [c7F]) (by decide),
    c7_retry_budget.2.1 (fun _ => none) (fun a h1 h2 => rfl),
    c7_retry_budget.2.2 c7F c7G
      (fun a h1 h2 => by simp only [c7G]; rw [if_pos (by omega)])⟩

/-! ## Claim C8 -/

/-- Claim C8: if the structured-data file does not exist, its patch step
returns without raising (a logged skip), the html patch step still runs,
and with the html file present the process finishes with exit status 0. -/
theorem c8_missing_yaml_skip (f : Nat → Option Doc) (fs : FS) (h : List Char)
    (a : Nat) (v : Int)
    (hy : fs.yaml = none) (hh : fs.html = some h)
    (hfetch : get_citation_count_direct f = Except.ok (a, v)) :
    mainRun f fs = (⟨none, some (update_html_text h v)⟩, 0) := by
  unfold mainRun
  rw [hfetch]
  simp only [update_yaml_file, update_index_html, hy, hh, Option.map_none']

/-- Claim C8 witness. -/
theorem c8_missing_yaml_skip_witness :
    mainRun (fun _ => some goodDoc) ⟨none, some tHtml⟩ =
      (⟨none, some (update_html_text tHtml 42)⟩, 0) :=
  c8_missing_yaml_skip (fun _ => some goodDoc) ⟨none, some tHtml⟩ tHtml 1 42 rfl rfl rfl

/-! ## Claim C9 -/

def negDoc : Doc := ⟨none, ["-5".toList], []⟩

/-- Claim C9 counterexample: a styled cell holding a negative number is
parsed by the Python int conversion, so extraction succeeds with a
negative CitationCount. -/
theorem c9_nonneg_counterexample :
    processDoc negDoc = some (-5) ∧ ((-5 : Int) < 0) :=
  ⟨by decide, by decide⟩

/-- Claim C9 (amended): extraction returns an integer; on the
regex-fallback path (no stats table and no styled cells) the returned
CitationCount is always non-negative.  The two cell-based strategies parse
via the Python int conversion and can return a negative value. -/
theorem c9_nonneg_amended (raw : List Char) (n : Int)
    (h : processDoc ⟨none, [], raw⟩ = some n) : 0 ≤ n := by
  simp only [processDoc, method2] at h
  rw [Option.map_eq_some'] at h
  obtain ⟨k, hk, he⟩ := h
  rw [← he]
  exact Int.ofNat_nonneg k

/-- Claim C9 witness. -/
theorem c9_nonneg_witness : (0 : Int) ≤ 9 :=
  c9_nonneg_amended ("Citations 9".toList) 9 (by decide)

/-! ## Claim C3 -/

theorem litCIAux_citStr (x : List Char) :
    litCIAux citLit (citStr ++ x) = some (citStr, x) :=
  litCIAux_append citLit citStr x citStr (by decide)

theorem regexFallback_lit (s a r : List Char) (n : Nat)
    (hl : litCIAux citLit s = some (a, r)) (hg : grabNum r = some n) :
    regexFallback s = some n := by
  cases s with
  | nil =>
    rw [show litCIAux citLit ([] : List Char) = none from by decide] at hl
    exact absurd hl (by simp)
  | cons c t =>
    rw [regexFallback_cons, hl]
    show (match grabNum r with
          | some n => some n
          | none => regexFallback t) = some n
    rw [hg]

def c3Doc : Doc := ⟨none, [], "Citations 1,234,567".toList⟩

/-- Claim C3 counterexample: on a document with neither structured signal,
the fallback regex allows at most one comma group, so a value written with
multiple separator groups is not parsed in full: 1,234,567 yields 1234. -/
theorem c3_fallback_counterexample :
    processDoc c3Doc = some 1234 ∧ processDoc c3Doc ≠ some 1234567 :=
  ⟨by decide, by decide⟩

/-- Claim C3 (amended): with neither the statistics table nor a styled
cell present, extraction returns the integer formed from the first digit
run following the literal word Citations together with at most one
comma-separated digit group; any further separator groups are not
captured, so a value with multiple separator groups is truncated after
the second group. -/
theorem c3_fallback_amended (p gap d1 d2 rest : List Char)
    (hp : ∀ i, i < p.length →
        litCIAux citLit (p.drop i ++ (citStr ++ (gap ++ d1 ++ ',' :: (d2 ++ rest)))) = none)
    (hgap : ∀ c ∈ gap, c.isDigit = false)
    (hd1ne : d1 ≠ []) (hd1 : ∀ c ∈ d1, c.isDigit = true)
    (hd2ne : d2 ≠ []) (hd2 : ∀ c ∈ d2, c.isDigit = true)
    (hrest : (rest.headD ' ').isDigit = false) :
    processDoc ⟨none, [], p ++ (citStr ++ (gap ++ d1 ++ ',' :: (d2 ++ rest)))⟩ =
      some ((natOfDigits (d1 ++ d2) : Int)) := by
  simp only [processDoc, method2]
  rw [regexFallback_append_skip p _ hp]
  rw [regexFallback_lit _ citStr (gap ++ d1 ++ ',' :: (d2 ++ rest))
    (natOfDigits (d1 ++ d2)) (litCIAux_citStr _)
    (grabNum_spec gap d1 d2 rest hgap hd1ne hd1 hd2ne hd2 hrest)]
  rfl

/-- Claim C3 witness. -/
theorem c3_fallback_witness :
    processDoc
        ⟨none, [],
          "x".toList ++ (citStr ++ (" ".toList ++ "1".toList ++ ',' :: ("234".toList ++ ",567".toList)))⟩ =
      some ((natOfDigits ("1".toList ++ "234".toList) : Int)) :=
  c3_fallback_amended "x".toList " ".toList "1".toList "234".toList ",567".toList
    (by decide) (by decide) (by decide) (by decide) (by decide) (by decide) (by decide)

/-! ## Claim C4 -/

/-- Claim C4: for a document whose statistics table contains a citations
row (the first row with at least two cells whose first cell, stripped and
lower-cased, contains the word citations) whose second cell is numeric
with optional thousands separators, the table strategy returns exactly
that value with the separators stripped. -/
theorem c4_table_strategy (rows : List (List (List Char))) (row : List (List Char))
    (cells : List (List Char)) (raw : List Char)
    (hfind : findCitRow rows = some row)
    (hne : removeCommas (pyStrip (row.getD 1 [])) ≠ [])
    (hdig : (removeCommas (pyStrip (row.getD 1 []))).all Char.isDigit = true) :
    processDoc ⟨some rows, cells, raw⟩ =
      some ((natOfDigits (removeCommas (pyStrip (row.getD 1 []))) : Int)) := by
  simp only [processDoc, hfind, parseCell]
  exact pyInt_digits _ hne hdig

/-- Claim C4 witness. -/
theorem c4_table_strategy_witness :
    processDoc ⟨some [[" Citations ".toList, "1,234".toList, "300".toList]], [], []⟩ =
      some 1234 := by
  have h := c4_table_strategy [[" Citations ".toList, "1,234".toList, "300".toList]]
    [" Citations ".toList, "1,234".toList, "300".toList] [] []
    (by decide) (by decide) (by decide)
  exact h.trans (by decide)

/-! ## Patch claims: helper lemmas -/

theorem single_match_sub (m : Matcher) (hs : GSound m) (content : List Char)
    (r gap g1 d g3 fin : List Char)
    (h : matchesF m content.length content = ([(gap, g1, d, g3)], fin)) :
    content = gap ++ g1 ++ d ++ g3 ++ fin ∧
    subF m r content.length content = gap ++ g1 ++ r ++ g3 ++ fin := by
  constructor
  · have hd := matchesF_decomp m hs content.length content
    simp only [h] at hd
    simp only [renderOrig] at hd
    exact hd.symm
  · have hr := subF_eq_render m r content.length content
    simp only [h] at hr
    rw [hr]
    simp [renderWith]

theorem subAll_id (m : Matcher) (hs : GSound m) (content r : List Char)
    (h : ∀ gap g1 d g3, (gap, g1, d, g3) ∈ (matchesF m content.length content).1 → d = r) :
    subF m r content.length content = content := by
  rw [subF_eq_render]
  rw [renderWith_eq_renderOrig r _ _ h]
  exact matchesF_decomp m hs content.length content

/-! ## Claim C5 -/

/-- Claim C5: when the file text contains exactly one pattern occurrence
(one GOOGLE SCHOLAR CITATIONS entry among any other content), patching
decomposes the text around the digit field and changes only that field:
both for the structured-data file and the html file, every byte outside
the matched numeric value is reproduced exactly. -/
theorem c5_patch_isolation :
    (∀ (content : List Char) (n : Int) (gap g1 d g3 fin : List Char),
        pyMatchesOf matchStrict content = ([(gap, g1, d, g3)], fin) →
        content = gap ++ g1 ++ d ++ g3 ++ fin ∧
        update_yaml_text content n = gap ++ g1 ++ pyStr n ++ g3 ++ fin) ∧
    (∀ (content : List Char) (n : Int) (gap g1 d g3 fin : List Char),
        pyMatchesOf matchHtml content = ([(gap, g1, d, g3)], fin) →
        content = gap ++ g1 ++ d ++ g3 ++ fin ∧
        update_html_text content n = gap ++ g1 ++ pyStr n ++ g3 ++ fin) := by
  constructor
  · intro content n gap g1 d g3 fin h
    unfold pyMatchesOf at h
    have base := single_match_sub matchStrict matchStrict_sound content (pyStr n) gap g1 d g3 fin h
    refine ⟨base.1, ?_⟩
    unfold update_yaml_text
    cases hsearch : pySearch matchStrict content with
    | none =>
      exfalso
      unfold pySearch at hsearch
      rw [firstMatchF_none_iff] at hsearch
      rw [h] at hsearch
      simp at hsearch
    | some p =>
      show pySubAll matchStrict (pyStr n) content = gap ++ g1 ++ pyStr n ++ g3 ++ fin
      exact base.2
  · intro content n gap g1 d g3 fin h
    unfold pyMatchesOf at h
    have base := single_match_sub matchHtml matchHtml_sound content (pyStr n) gap g1 d g3 fin h
    refine ⟨base.1, ?_⟩
    unfold update_html_text
    cases hsearch : pySearch matchHtml content with
    | none =>
      exfalso
      unfold pySearch at hsearch
      rw [firstMatchF_none_iff] at hsearch
      rw [h] at hsearch
      simp at hsearch
    | some p =>
      show pySubAll matchHtml (pyStr n) content = gap ++ g1 ++ pyStr n ++ g3 ++ fin
      exact base.2

def c5yG : List Char × List Char × List Char × List Char :=
  (pyMatchesOf matchStrict tYaml).1.headD ([], [], [], [])

def c5hG : List Char × List Char × List Char × List Char :=
  (pyMatchesOf matchHtml tHtml).1.headD ([], [], [], [])

/-- Claim C5 witness. -/
theorem c5_patch_isolation_witness :
    (tYaml = c5yG.1 ++ c5yG.2.1 ++ c5yG.2.2.1 ++ c5yG.2.2.2 ++ (pyMatchesOf matchStrict tYaml).2 ∧
      update_yaml_text tYaml 57 =
        c5yG.1 ++ c5yG.2.1 ++ pyStr 57 ++ c5yG.2.2.2 ++ (pyMatchesOf matchStrict tYaml).2) ∧
    (tHtml = c5hG.1 ++ c5hG.2.1 ++ c5hG.2.2.1 ++ c5hG.2.2.2 ++ (pyMatchesOf matchHtml tHtml).2 ∧
      update_html_text tHtml 57 =
        c5hG.1 ++ c5hG.2.1 ++ pyStr 57 ++ c5hG.2.2.2 ++ (pyMatchesOf matchHtml tHtml).2) :=
  ⟨c5_patch_isolation.1 tYaml 57 c5yG.1 c5yG.2.1 c5yG.2.2.1 c5yG.2.2.2
      (pyMatchesOf matchStrict tYaml).2 rfl,
    c5_patch_isolation.2 tHtml 57 c5hG.1 c5hG.2.1 c5hG.2.2.1 c5hG.2.2.2
      (pyMatchesOf matchHtml tHtml).2 rfl⟩

/-! ## Claim C6 -/

/-- Claim C6: patching a file whose matched digit field (every strict
occurrence, or the first loose occurrence, or every html occurrence)
already holds the decimal rendering of the new value yields byte-identical
output, for both patch operations. -/
theorem c6_patch_idempotent :
    (∀ (content : List Char) (n : Int),
        ((pyMatchesOf matchStrict content).1.all (fun q => q.2.2.1 = pyStr n)) = true →
        ((pySearch matchLoose content).all (fun q => q.2.2.1 = pyStr n)) = true →
        update_yaml_text content n = content) ∧
    (∀ (content : List Char) (n : Int),
        ((pyMatchesOf matchHtml content).1.all (fun q => q.2.2.1 = pyStr n)) = true →
        update_html_text content n = content) := by
  constructor
  · intro content n h1 h2
    unfold pyMatchesOf at h1
    unfold update_yaml_text
    cases hsearch : pySearch matchStrict content with
    | some p =>
      show subF matchStrict (pyStr n) content.length content = content
      refine subAll_id matchStrict matchStrict_sound content (pyStr n) ?_
      intro gap g1 d g3 hm
      have := List.all_eq_true.mp h1 (gap, g1, d, g3) hm
      simpa using this
    | none =>
      cases hloose : pySearch matchLoose content with
      | none => rfl
      | some p =>
        obtain ⟨gap, g1, d, g3, rest⟩ := p
        show subFirstF matchLoose (pyStr n) content.length content = content
        rw [subFirstF_eq]
        unfold pySearch at hloose
        rw [hloose]
        show gap ++ g1 ++ pyStr n ++ g3 ++ rest = content
        have hd : d = pyStr n := by
          unfold pySearch at h2
          rw [hloose] at h2
          simpa using h2
        rw [← hd]
        exact (firstMatchF_decomp matchLoose matchLoose_sound content.length content
          gap g1 d g3 rest hloose).symm
  · intro content n h1
    unfold pyMatchesOf at h1
    unfold update_html_text
    cases hsearch : pySearch matchHtml content with
    | none => rfl
    | some p =>
      show subF matchHtml (pyStr n) content.length content = content
      refine subAll_id matchHtml matchHtml_sound content (pyStr n) ?_
      intro gap g1 d g3 hm
      have := List.all_eq_true.mp h1 (gap, g1, d, g3) hm
      simpa using this

/-- Claim C6 witness. -/
theorem c6_patch_idempotent_witness :
    update_yaml_text tYaml 41 = tYaml ∧ update_html_text tHtml 41 = tHtml :=
  ⟨c6_patch_idempotent.1 tYaml 41 (by decide) (by decide),
    c6_patch_idempotent.2 tHtml 41 (by decide)⟩

/-! ## Claim C10 -/

/-- Claim C10: when the strict structured-data pattern matches, the
substitution is applied to every occurrence found by the left-to-right
scan (the render replaces each listed match), not only the first; when
only the looser fallback pattern matches, exactly the first occurrence is
replaced and the remainder of the text after it is kept verbatim. -/
theorem c10_global_vs_first :
    (∀ (content : List Char) (n : Int)
        (ms : List (List Char × List Char × List Char × List Char)) (fin : List Char),
        pyMatchesOf matchStrict content = (ms, fin) → ms ≠ [] →
        update_yaml_text content n = renderWith (pyStr n) ms fin) ∧
    (∀ (content : List Char) (n : Int) (gap g1 d g3 rest : List Char),
        pySearch matchStrict content = none →
        pySearch matchLoose content = some (gap, g1, d, g3, rest) →
        update_yaml_text content n = gap ++ g1 ++ pyStr n ++ g3 ++ rest) := by
  constructor
  · intro content n ms fin h hne
    unfold pyMatchesOf at h
    unfold update_yaml_text
    cases hsearch : pySearch matchStrict content with
    | none =>
      exfalso
      unfold pySearch at hsearch
      rw [firstMatchF_none_iff] at hsearch
      rw [h] at hsearch
      exact hne hsearch
    | some p =>
      show subF matchStrict (pyStr n) content.length content = renderWith (pyStr n) ms fin
      rw [subF_eq_render]
      simp only [h]
  · intro content n gap g1 d g3 rest hnone hsome
    unfold update_yaml_text
    cases hsearch : pySearch matchStrict content with
    | some p =>
      rw [hnone] at hsearch
      exact Option.noConfusion hsearch
    | none =>
      cases hloose : pySearch matchLoose content with
      | none =>
        rw [hloose] at hsome
        exact Option.noConfusion hsome
      | some p =>
        show subFirstF matchLoose (pyStr n) content.length content =
          gap ++ g1 ++ pyStr n ++ g3 ++ rest
        rw [subFirstF_eq]
        unfold pySearch at hsome
        rw [hsome]

def c10G : List Char × List Char × List Char × List Char × List Char :=
  (pySearch matchLoose tLoose).getD ([], [], [], [], [])

/-- Claim C10 witness. -/
theorem c10_global_vs_first_witness :
    update_yaml_text tYaml2 7 =
      renderWith (pyStr 7) (pyMatchesOf matchStrict tYaml2).1 (pyMatchesOf matchStrict tYaml2).2 ∧
    update_yaml_text tLoose 57 =
      c10G.1 ++ c10G.2.1 ++ pyStr 57 ++ c10G.2.2.2.1 ++ c10G.2.2.2.2 :=
  ⟨c10_global_vs_first.1 tYaml2 7 (pyMatchesOf matchStrict tYaml2).1
      (pyMatchesOf matchStrict tYaml2).2 rfl (by decide),
    c10_global_vs_first.2 tLoose 57 c10G.1 c10G.2.1 c10G.2.2.1 c10G.2.2.2.1 c10G.2.2.2.2
      rfl rfl⟩
